import Mathlib

/-! # CTK: ctkSearchBox and ctkXnatTreeModel

A shallow embedding of two presentation-layer components of CTK:

* `Libs/Widgets/ctkSearchBox.cpp`: the geometry of the two inline icons of the
  search box, the hit-testing done by `mousePressEvent` and the text margins
  set by `resizeEvent`;
* `Libs/XNAT/Widgets/ctkXnatTreeModel.cpp`: the lazily populated item tree, its
  index/parent bookkeeping and the row notifications it emits.

C++ `int` values are embedded as `Int`. Every quantity involved is a pixel
coordinate of a widget (Qt bounds widget sizes by `QWIDGETSIZE_MAX = 2^24 - 1`)
or a row number of a list held in memory, so no computation comes near the
limits of a 32-bit integer.
-/

namespace CTK

/-! ## Qt value classes used by the search box -/

/-- Qt's `QPoint`: integer pixel coordinates. -/
structure QPoint where
  x : Int
  y : Int
deriving DecidableEq, Repr

/-- Qt's `QSize`: integer width and height. -/
structure QSize where
  wd : Int
  ht : Int
deriving DecidableEq, Repr

/-- The `QSize` difference `s1 - s2`, componentwise. -/
def QSize.sub (s1 s2 : QSize) : QSize := ⟨s1.wd - s2.wd, s1.ht - s2.ht⟩

/-- The scaling `c * s` of a `QSize` by an integer factor. -/
def QSize.scale (c : Int) (s : QSize) : QSize := ⟨c * s.wd, c * s.ht⟩

/-- Qt's `QRect`, stored as in Qt by its two inclusive corners
`(x1, y1)` and `(x2, y2)`. -/
structure QRect where
  x1 : Int
  y1 : Int
  x2 : Int
  y2 : Int
deriving DecidableEq, Repr

namespace QRect

/-- The default constructed `QRect()`: the null rectangle `(0, 0, -1, -1)`. -/
def null : QRect := ⟨0, 0, -1, -1⟩

def left (r : QRect) : Int := r.x1
def top (r : QRect) : Int := r.y1
def right (r : QRect) : Int := r.x2
def bottom (r : QRect) : Int := r.y2
def width (r : QRect) : Int := r.x2 - r.x1 + 1
def height (r : QRect) : Int := r.y2 - r.y1 + 1
def size (r : QRect) : QSize := ⟨r.width, r.height⟩

/-- `QRect::moveLeft(pos)`: `x2 += pos - x1; x1 = pos`. -/
def moveLeft (r : QRect) (pos : Int) : QRect :=
  { r with x2 := r.x2 + (pos - r.x1), x1 := pos }

/-- `QRect::moveTop(pos)`: `y2 += pos - y1; y1 = pos`. -/
def moveTop (r : QRect) (pos : Int) : QRect :=
  { r with y2 := r.y2 + (pos - r.y1), y1 := pos }

/-- `QRect::moveTopLeft(p)`: `moveLeft(p.x()); moveTop(p.y())`. -/
def moveTopLeft (r : QRect) (p : QPoint) : QRect :=
  (r.moveLeft p.x).moveTop p.y

/-- `QRect::translate(p)`: shift both corners by `p`. -/
def translate (r : QRect) (p : QPoint) : QRect :=
  ⟨r.x1 + p.x, r.y1 + p.y, r.x2 + p.x, r.y2 + p.y⟩

/-- `QRect::setSize(s)`: `x2 = s.width() + x1 - 1; y2 = s.height() + y1 - 1`. -/
def setSize (r : QRect) (s : QSize) : QRect :=
  { r with x2 := s.wd + r.x1 - 1, y2 := s.ht + r.y1 - 1 }

/-- `QRect::contains(p)` with `proper = false`: Qt first orders the two
corners on each axis (a rectangle of negative extent is read backwards) and
then tests the point against the inclusive bounds. -/
def contains (r : QRect) (p : QPoint) : Bool :=
  let l := if r.x2 < r.x1 - 1 then r.x2 else r.x1
  let rr := if r.x2 < r.x1 - 1 then r.x1 else r.x2
  if p.x < l ∨ p.x > rr then false
  else
    let t := if r.y2 < r.y1 - 1 then r.y2 else r.y1
    let b := if r.y2 < r.y1 - 1 then r.y1 else r.y2
    if p.y < t ∨ p.y > b then false else true

end QRect

/-! ## ctkSearchBox -/

/-- `QIcon::Mode`, as far as the search box uses it. -/
inductive IconMode where
  | Normal
  | Disabled
deriving DecidableEq, Repr

/-- The text margins of a `QLineEdit` (`setTextMargins(left, top, right, bottom)`). -/
structure TextMargins where
  left : Int
  top : Int
  right : Int
  bottom : Int
deriving DecidableEq, Repr

/-- The part of a `ctkSearchBox` (a `QLineEdit` with its private data) that
the geometry and the event handlers read or write.

* `width`, `height`: the widget's size;
* `hasFrame`: `QLineEdit::hasFrame()`;
* `lineWidth`: the `lineWidth` that `initStyleOption` stores in the frame
  option when the line edit has a frame (the style's default frame width);
* `text`: the content of the line edit;
* `selection`: the selected character range `(start, length)`, if any;
* `textMargins`: the margins last set;
* `clearIconMode`: the private `clearIconMode`. -/
structure ctkSearchBox where
  width : Int
  height : Int
  hasFrame : Bool
  lineWidth : Int
  text : String
  selection : Option (Nat × Nat)
  textMargins : TextMargins
  clearIconMode : IconMode
deriving DecidableEq, Repr

namespace ctkSearchBox

/-- `ctkSearchBoxPrivate::searchRect`. -/
def searchRect (q : ctkSearchBox) : QRect :=
  let sRect := QRect.null
  let sRect := if q.hasFrame then sRect.moveTopLeft ⟨q.lineWidth, q.lineWidth⟩ else sRect
  let sRect := sRect.translate ⟨1, 1⟩
  sRect.setSize ((QSize.mk q.height q.height).sub (QSize.scale 2 ⟨sRect.left, sRect.top⟩))

/-- `ctkSearchBoxPrivate::clearRect`. -/
def clearRect (q : ctkSearchBox) : QRect :=
  let cRect := q.searchRect
  cRect.moveLeft (q.width - cRect.width - cRect.left)

/-- `ctkSearchBox::updateClearButtonState`, the slot connected to
`textChanged` by `ctkSearchBoxPrivate::init`. -/
def updateClearButtonState (q : ctkSearchBox) : ctkSearchBox :=
  { q with clearIconMode := if q.text.isEmpty then IconMode.Disabled else IconMode.Normal }

/-- `QLineEdit::clear()`: empties the text and drops the selection; when the
text changes, `textChanged` fires and runs the connected slot. -/
def clear (q : ctkSearchBox) : ctkSearchBox :=
  let q1 := { q with text := "", selection := none }
  if q.text = "" then q1 else q1.updateClearButtonState

/-- `QLineEdit::selectAll()`: selects the whole text. -/
def selectAll (q : ctkSearchBox) : ctkSearchBox :=
  { q with selection := some (0, q.text.length) }

/-- `ctkSearchBox::mousePressEvent`. The second component of the result is
the event handed to `Superclass::mousePressEvent`, when it is handed on. -/
def mousePressEvent (q : ctkSearchBox) (pos : QPoint) : ctkSearchBox × Option QPoint :=
  if q.clearRect.contains pos then
    (q.clear, none)
  else if q.searchRect.contains pos then
    (q.selectAll, none)
  else
    (q, some pos)

/-- The constant `iconSpacing` of `ctkSearchBox::resizeEvent`. -/
def iconSpacing : Int := 4

/-- `ctkSearchBox::resizeEvent`: `eventWidth` is `event->size().width()`. -/
def resizeEvent (q : ctkSearchBox) (eventWidth : Int) : ctkSearchBox :=
  let cRect := q.clearRect
  let sRect := q.searchRect
  { q with textMargins :=
      ⟨sRect.right + iconSpacing, 0, eventWidth - cRect.left - iconSpacing, 0⟩ }

/-- The frame offset of the icons: the style's line width when the line edit
has a frame, `0` otherwise. -/
def frameOffset (q : ctkSearchBox) : Int := if q.hasFrame then q.lineWidth else 0

end ctkSearchBox

/-- A search box of the given size with a frame of the given line width. -/
def sampleBox (w h lw : Int) : ctkSearchBox :=
  { width := w, height := h, hasFrame := true, lineWidth := lw, text := "abc",
    selection := none, textMargins := ⟨0, 0, 0, 0⟩, clearIconMode := IconMode.Normal }

/-! ## Pointers, faults and Qt containers used by the tree model -/

/-- A `ctkXnatTreeItem*`: the address of a tree item in the heap of items. -/
abbrev ItemId := Nat

/-- A non-null `ctkXnatObject::Pointer`: the identity of a remote object. A
shared pointer keeps its object alive, so every identity denotes an object. -/
abbrev ObjId := Nat

/-- The ways a call can leave defined behaviour. -/
inductive Fault where
  | nullDereference
  | danglingPointer
  | indexOutOfRange
deriving DecidableEq, Repr

/-- `QList<T>::operator[](i)` (and `at(i)`): the index must be in range. -/
def qListAt {α : Type} (l : List α) (i : Int) : Except Fault α :=
  if i < 0 then Except.error Fault.indexOutOfRange
  else
    match l[i.toNat]? with
    | some a => Except.ok a
    | none => Except.error Fault.indexOutOfRange

/-- `QList<T*>::value(i)`: the element at `i`, or the null pointer when `i`
is out of range. -/
def qListValue (l : List ItemId) (i : Int) : Option ItemId :=
  if i < 0 then none else l[i.toNat]?

/-- `QList<T>::indexOf(x)`: the position of the first occurrence, `-1` when
there is none. -/
def qListIndexOf (l : List ItemId) (x : ItemId) : Int :=
  if x ∈ l then (l.indexOf x : Int) else -1

/-- Qt's `QModelIndex`: row, column, internal pointer and whether it carries
a model (`m != 0`). -/
structure QModelIndex where
  row : Int
  column : Int
  internalPointer : Option ItemId
  model : Bool
deriving DecidableEq, Repr

namespace QModelIndex

/-- The default constructed `QModelIndex()`: `(-1, -1, 0, 0)`. -/
def invalid : QModelIndex := ⟨-1, -1, none, false⟩

/-- `QModelIndex::isValid()`: `r >= 0 && c >= 0 && m != 0`. -/
def isValid (i : QModelIndex) : Bool :=
  decide (0 ≤ i.row) && decide (0 ≤ i.column) && i.model

end QModelIndex

/-- `QAbstractItemModel::createIndex(row, column, ptr)`. -/
def createIndex (row column : Int) (ptr : Option ItemId) : QModelIndex :=
  ⟨row, column, ptr, true⟩

/-! ## ctkXnatTreeItem and ctkXnatObject -/

/-- Modelled from the spec: the class `ctkXnatTreeItem` (its source file is
not part of the sources at hand): "an internal node wrapping one
remote-resource object plus parent/child links". `xnatObject` is the wrapped
object (null for the root item), `parent` the parent item (null for the root
item) and `childItems` the list of child items. -/
structure ctkXnatTreeItem where
  xnatObject : Option ObjId
  parent : Option ItemId
  childItems : List ItemId
deriving DecidableEq, Repr

namespace ctkXnatTreeItem

/-- Modelled from the spec: `ctkXnatTreeItem::childCount()`, the number of
child links. -/
def childCount (it : ctkXnatTreeItem) : Int := it.childItems.length

/-- Modelled from the spec: `ctkXnatTreeItem::child(row)`, the child link at
`row`, null when there is none. -/
def child (it : ctkXnatTreeItem) (row : Int) : Option ItemId := qListValue it.childItems row

end ctkXnatTreeItem

/-- Modelled from the spec: the interface of `ctkXnatObject` (the
remote-resource object hierarchy, a collaborator outside the sources at hand)
that the tree model calls. `σ` is the state of all remote objects; the
children of an object are a list of possibly null object pointers. -/
structure XnatInterface (σ : Type) where
  isFetched : σ → ObjId → Bool
  children : σ → ObjId → List (Option ObjId)
  fetch : σ → ObjId → σ
  removeChild : σ → ObjId → ObjId → σ
  download : σ → ObjId → String → σ
  upload : σ → ObjId → String → σ
  add : σ → ObjId → String → σ
  remove : σ → ObjId → σ

/-! ## ctkXnatTreeModel -/

/-- The signals of `QAbstractItemModel` that the tree model triggers. -/
inductive Signal where
  | beginInsertRows (parent : QModelIndex) (first last : Int)
  | endInsertRows
  | beginRemoveRows (parent : QModelIndex) (first last : Int)
  | endRemoveRows
deriving DecidableEq, Repr

/-- The state of a `ctkXnatTreeModel` together with the world it acts on:
the heap of tree items (an item pointer is a position in `items`, a new item
takes the next free position), the pointer `m_RootItem`, the state of the
remote objects and the notifications emitted so far. -/
structure ctkXnatTreeModel (σ : Type) where
  items : List ctkXnatTreeItem
  m_RootItem : ItemId
  objects : σ
  signals : List Signal

/-- Dereference an item pointer. -/
def derefItem (h : List ctkXnatTreeItem) (p : Option ItemId) : Except Fault ctkXnatTreeItem :=
  match p with
  | none => Except.error Fault.nullDereference
  | some i =>
    match h[i]? with
    | some it => Except.ok it
    | none => Except.error Fault.danglingPointer

/-- Dereference an object pointer. -/
def derefObject (p : Option ObjId) : Except Fault ObjId :=
  match p with
  | none => Except.error Fault.nullDereference
  | some o => Except.ok o

/-- Modelled from the spec: `ctkXnatTreeItem::row()` called on the item at
`self`: the position of the item among its parent's child links, `0` for an
item without parent. -/
def itemRow (h : List ctkXnatTreeItem) (self : Option ItemId) : Except Fault Int :=
  match self with
  | none => Except.error Fault.nullDereference
  | some i =>
    match h[i]? with
    | none => Except.error Fault.danglingPointer
    | some it =>
      match it.parent with
      | none => Except.ok 0
      | some q =>
        match h[q]? with
        | none => Except.error Fault.danglingPointer
        | some qit => Except.ok (qListIndexOf qit.childItems i)

/-- Modelled from the spec: `ctkXnatTreeItem::appendChild(child)` called on
the item at `item` (which its callers have dereferenced before). -/
def appendChild (h : List ctkXnatTreeItem) (item child : ItemId) : List ctkXnatTreeItem :=
  match h[item]? with
  | some it => h.set item { it with childItems := it.childItems ++ [child] }
  | none => h

/-- The statement `item->appendChild(new ctkXnatTreeItem(object, item))`. -/
def appendNewChild (h : List ctkXnatTreeItem) (item : ItemId) (object : Option ObjId) :
    List ctkXnatTreeItem :=
  appendChild (h ++ [⟨object, some item, []⟩]) item h.length

/-- The loop `foreach (child, children) item->appendChild(new ctkXnatTreeItem(child, item))`. -/
def appendChildren (item : ItemId) : List (Option ObjId) → List ctkXnatTreeItem → List ctkXnatTreeItem
  | [], h => h
  | child :: rest, h => appendChildren item rest (appendNewChild h item child)

namespace ctkXnatTreeModel

variable {σ : Type}

/-- The constructor `ctkXnatTreeModel()`: a root item without object,
parent or children. -/
def new (objects : σ) : ctkXnatTreeModel σ :=
  { items := [⟨none, none, []⟩], m_RootItem := 0, objects := objects, signals := [] }

/-- `ctkXnatTreeModel::itemAt`. -/
def itemAt (_m : ctkXnatTreeModel σ) (index : QModelIndex) : Option ItemId :=
  index.internalPointer

/-- `ctkXnatTreeModel::rowCount`. -/
def rowCount (m : ctkXnatTreeModel σ) (index : QModelIndex) : Except Fault Int :=
  if index.column > 0 then Except.ok 0
  else
    let item := if !index.isValid then some m.m_RootItem else m.itemAt index
    match derefItem m.items item with
    | Except.error e => Except.error e
    | Except.ok it => Except.ok it.childCount

/-- `ctkXnatTreeModel::columnCount`. -/
def columnCount (_m : ctkXnatTreeModel σ) (_index : QModelIndex) : Int := 1

/-- `QAbstractItemModel::hasIndex(row, column, parent)`. -/
def hasIndex (m : ctkXnatTreeModel σ) (row column : Int) (parent : QModelIndex) :
    Except Fault Bool :=
  if row < 0 ∨ column < 0 then Except.ok false
  else
    match m.rowCount parent with
    | Except.error e => Except.error e
    | Except.ok n => Except.ok (decide (row < n) && decide (column < m.columnCount parent))

/-- `ctkXnatTreeModel::index`. -/
def index (m : ctkXnatTreeModel σ) (row column : Int) (index : QModelIndex) :
    Except Fault QModelIndex :=
  match m.hasIndex row column index with
  | Except.error e => Except.error e
  | Except.ok false => Except.ok QModelIndex.invalid
  | Except.ok true =>
    let item := if !index.isValid then some m.m_RootItem else m.itemAt index
    match derefItem m.items item with
    | Except.error e => Except.error e
    | Except.ok it =>
      match it.child row with
      | some childItem => Except.ok (createIndex row column (some childItem))
      | none => Except.ok QModelIndex.invalid

/-- `ctkXnatTreeModel::parent`. -/
def parent (m : ctkXnatTreeModel σ) (index : QModelIndex) : Except Fault QModelIndex :=
  if !index.isValid then Except.ok QModelIndex.invalid
  else
    match derefItem m.items (m.itemAt index) with
    | Except.error e => Except.error e
    | Except.ok it =>
      let parentItem := it.parent
      if parentItem = some m.m_RootItem then Except.ok QModelIndex.invalid
      else
        match itemRow m.items parentItem with
        | Except.error e => Except.error e
        | Except.ok r => Except.ok (createIndex r 0 parentItem)

/-- `ctkXnatTreeModel::hasChildren`. -/
def hasChildren (R : XnatInterface σ) (m : ctkXnatTreeModel σ) (index : QModelIndex) :
    Except Fault Bool :=
  if !index.isValid then
    match derefItem m.items (some m.m_RootItem) with
    | Except.error e => Except.error e
    | Except.ok rt => Except.ok (decide (rt.childCount > 0))
  else
    match derefItem m.items (m.itemAt index) with
    | Except.error e => Except.error e
    | Except.ok it =>
      match derefObject it.xnatObject with
      | Except.error e => Except.error e
      | Except.ok xnatObject =>
        Except.ok (!R.isFetched m.objects xnatObject || decide (it.childCount > 0))

/-- `ctkXnatTreeModel::canFetchMore`. -/
def canFetchMore (R : XnatInterface σ) (m : ctkXnatTreeModel σ) (index : QModelIndex) :
    Except Fault Bool :=
  if !index.isValid then Except.ok false
  else
    match derefItem m.items (m.itemAt index) with
    | Except.error e => Except.error e
    | Except.ok it =>
      match derefObject it.xnatObject with
      | Except.error e => Except.error e
      | Except.ok xnatObject => Except.ok (!R.isFetched m.objects xnatObject)

/-- `ctkXnatTreeModel::fetchMore`. -/
def fetchMore (R : XnatInterface σ) (m : ctkXnatTreeModel σ) (index : QModelIndex) :
    Except Fault (ctkXnatTreeModel σ) :=
  if !index.isValid then Except.ok m
  else
    match m.itemAt index with
    | none => Except.error Fault.nullDereference
    | some item =>
      match derefItem m.items (some item) with
      | Except.error e => Except.error e
      | Except.ok it =>
        match derefObject it.xnatObject with
        | Except.error e => Except.error e
        | Except.ok xnatObject =>
          let objects := R.fetch m.objects xnatObject
          let children := R.children objects xnatObject
          if !children.isEmpty then
            Except.ok
              { m with
                objects := objects
                items := appendChildren item children m.items
                signals := m.signals ++
                  [Signal.beginInsertRows index 0 ((children.length : Int) - 1),
                   Signal.endInsertRows] }
          else
            Except.ok { m with objects := objects }

/-- `ctkXnatTreeModel::addServer`. -/
def addServer (m : ctkXnatTreeModel σ) (server : Option ObjId) : ctkXnatTreeModel σ :=
  { m with items := appendNewChild m.items m.m_RootItem server }

/-- `ctkXnatTreeModel::removeAllRows`: the returned flag and the new state. -/
def removeAllRows (R : XnatInterface σ) (m : ctkXnatTreeModel σ) (parent : QModelIndex) :
    Except Fault (Bool × ctkXnatTreeModel σ) :=
  if !parent.isValid then Except.ok (false, m)
  else
    match derefItem m.items (m.itemAt parent) with
    | Except.error e => Except.error e
    | Except.ok it =>
      match derefObject it.xnatObject with
      | Except.error e => Except.error e
      | Except.ok xnatObject =>
        match qListAt (R.children m.objects xnatObject) parent.row with
        | Except.error e => Except.error e
        | Except.ok none => Except.ok (false, m)
        | Except.ok (some child) =>
          let numberofchildren : Int := (R.children m.objects child).length
          if numberofchildren > 0 then
            Except.ok (true,
              { m with
                objects := R.removeChild m.objects xnatObject child
                signals := m.signals ++
                  [Signal.beginRemoveRows parent 0 (numberofchildren - 1),
                   Signal.endRemoveRows] })
          else
            Except.ok (true, { m with objects := R.removeChild m.objects xnatObject child })

/-- `ctkXnatTreeModel::downloadFile`. -/
def downloadFile (R : XnatInterface σ) (m : ctkXnatTreeModel σ) (index : QModelIndex)
    (zipFileName : String) : Except Fault (ctkXnatTreeModel σ) :=
  if !index.isValid then Except.ok m
  else
    match derefItem m.items (m.itemAt index) with
    | Except.error e => Except.error e
    | Except.ok it =>
      match derefObject it.xnatObject with
      | Except.error e => Except.error e
      | Except.ok object => Except.ok { m with objects := R.download m.objects object zipFileName }

/-- The common start of `uploadFile`, `addEntry` and `removeEntry` on a valid
index: `itemAt(index)->xnatObject()->children()[index.row()]`, dereferenced. -/
def childAtRow (R : XnatInterface σ) (m : ctkXnatTreeModel σ) (index : QModelIndex) :
    Except Fault ObjId :=
  match derefItem m.items (m.itemAt index) with
  | Except.error e => Except.error e
  | Except.ok it =>
    match derefObject it.xnatObject with
    | Except.error e => Except.error e
    | Except.ok xnatObject =>
      match qListAt (R.children m.objects xnatObject) index.row with
      | Except.error e => Except.error e
      | Except.ok child => derefObject child

/-- `ctkXnatTreeModel::uploadFile`. -/
def uploadFile (R : XnatInterface σ) (m : ctkXnatTreeModel σ) (index : QModelIndex)
    (zipFileName : String) : Except Fault (ctkXnatTreeModel σ) :=
  if !index.isValid then Except.ok m
  else
    match childAtRow R m index with
    | Except.error e => Except.error e
    | Except.ok child => Except.ok { m with objects := R.upload m.objects child zipFileName }

/-- `ctkXnatTreeModel::addEntry`. -/
def addEntry (R : XnatInterface σ) (m : ctkXnatTreeModel σ) (index : QModelIndex)
    (name : String) : Except Fault (ctkXnatTreeModel σ) :=
  if !index.isValid then Except.ok m
  else
    match childAtRow R m index with
    | Except.error e => Except.error e
    | Except.ok child => Except.ok { m with objects := R.add m.objects child name }

/-- `ctkXnatTreeModel::removeEntry`. -/
def removeEntry (R : XnatInterface σ) (m : ctkXnatTreeModel σ) (index : QModelIndex) :
    Except Fault (ctkXnatTreeModel σ) :=
  if !index.isValid then Except.ok m
  else
    match childAtRow R m index with
    | Except.error e => Except.error e
    | Except.ok child => Except.ok { m with objects := R.remove m.objects child }

end ctkXnatTreeModel

/-! ## Indices handed out by the model, reachable states -/

/-- The indices a client of the model can hold in state `m`: the default
constructed index, and whatever `index` and `parent` return for an index it
already holds. (`createIndex` is not accessible from outside the model.) -/
inductive Issued {σ : Type} (m : ctkXnatTreeModel σ) : QModelIndex → Prop where
  | root : Issued m QModelIndex.invalid
  | index {p i : QModelIndex} (row column : Int) :
      Issued m p → m.index row column p = Except.ok i → Issued m i
  | parent {p i : QModelIndex} :
      Issued m p → m.parent p = Except.ok i → Issued m i

/-- The model states reachable from the freshly constructed model by
`addServer` and by `fetchMore`. A `fetchMore` step is taken on any index on
which the call returns, which covers the indices the model hands out in the
current or in an earlier state. -/
inductive Reachable {σ : Type} (R : XnatInterface σ) : ctkXnatTreeModel σ → Prop where
  | new (objects : σ) : Reachable R (ctkXnatTreeModel.new objects)
  | addServer {m : ctkXnatTreeModel σ} (server : Option ObjId) :
      Reachable R m → Reachable R (m.addServer server)
  | fetchMore {m m' : ctkXnatTreeModel σ} (index : QModelIndex) :
      Reachable R m → m.fetchMore R index = Except.ok m' → Reachable R m'

/-- The shape of a heap of tree items built by the model, with the root item
at address `0`: the root is live and has no parent, it is the only item
without parent, child links and parent links mirror each other, no child
link points to the root, and no item is linked twice from its parent. -/
structure HeapOk (h : List ctkXnatTreeItem) : Prop where
  root : ∃ rt : ctkXnatTreeItem, h[0]? = some rt ∧ rt.parent = none
  orphan : ∀ (c : ItemId) (cit : ctkXnatTreeItem), h[c]? = some cit → cit.parent = none → c = 0
  down : ∀ (p : ItemId) (pit : ctkXnatTreeItem) (c : ItemId),
    h[p]? = some pit → c ∈ pit.childItems →
      c ≠ 0 ∧ ∃ cit : ctkXnatTreeItem, h[c]? = some cit ∧ cit.parent = some p
  up : ∀ (c : ItemId) (cit : ctkXnatTreeItem) (q : ItemId),
    h[c]? = some cit → cit.parent = some q →
      ∃ qit : ctkXnatTreeItem, h[q]? = some qit ∧ c ∈ qit.childItems
  nodup : ∀ (p : ItemId) (pit : ctkXnatTreeItem), h[p]? = some pit → pit.childItems.Nodup

/-- A valid index of the heap `h`: it carries the model, has column `0`, and
its internal pointer is the child link number `row` of a live item. -/
def IsIndexOf (h : List ctkXnatTreeItem) (i : QModelIndex) : Prop :=
  i.model = true ∧ i.column = 0 ∧ 0 ≤ i.row ∧
    ∃ (c q : ItemId) (qit : ctkXnatTreeItem), i.internalPointer = some c ∧
      h[q]? = some qit ∧ qit.childItems[i.row.toNat]? = some c

/-! ## A concrete remote-object hierarchy -/

/-- Modelled from the spec: the data of one `ctkXnatObject` (a collaborator
outside the sources at hand): whether it has been fetched, its current list
of children, and `listing`, the children the remote resource reports for it
when it is fetched. -/
structure XnatObjectData where
  fetched : Bool
  children : List (Option ObjId)
  listing : List (Option ObjId)
deriving DecidableEq, Repr

/-- The state of the remote objects: object `o` is entry `o` of the list; an
object beyond the list is unfetched and has nothing to list. -/
abbrev XnatStore := List XnatObjectData

/-- Look up an object of the store. -/
def XnatStore.get (s : XnatStore) (o : ObjId) : XnatObjectData :=
  s.getD o ⟨false, [], []⟩

/-- Modelled from the spec: a remote-object hierarchy with lazy fetch.
`fetch` retrieves the listed children of an object that is not fetched yet
and marks it fetched; `removeChild` drops a child from the list of children;
the transfers leave the hierarchy as it is. -/
def simpleXnat : XnatInterface XnatStore where
  isFetched s o := (s.get o).fetched
  children s o := (s.get o).children
  fetch s o :=
    if (s.get o).fetched then s
    else s.set o { s.get o with fetched := true, children := (s.get o).children ++ (s.get o).listing }
  removeChild s o c := s.set o { s.get o with children := (s.get o).children.erase (some c) }
  download s _ _ := s
  upload s _ _ := s
  add s _ _ := s
  remove s _ := s

/-- A hierarchy of four objects: server `0` lists project `1`, project `1`
lists subjects `2` and `3`; nothing is fetched yet. -/
def sampleStore : XnatStore :=
  [⟨false, [], [some 1]⟩, ⟨false, [], [some 2, some 3]⟩, ⟨false, [], []⟩, ⟨false, [], []⟩]

/-- The model after construction and `addServer` of server `0`. -/
def serverModel : ctkXnatTreeModel XnatStore :=
  (ctkXnatTreeModel.new sampleStore).addServer (some 0)

/-- The index of the server item: what `index(0, 0, QModelIndex())` returns
in `serverModel`. -/
def serverIndex : QModelIndex := createIndex 0 0 (some 1)

/-- The index of the project item under the server item. -/
def projectIndex : QModelIndex := createIndex 0 0 (some 2)

/-- Run `fetchMore` and stay in the current state if it faults. -/
def fetchMoreOr (m : ctkXnatTreeModel XnatStore) (i : QModelIndex) : ctkXnatTreeModel XnatStore :=
  match m.fetchMore simpleXnat i with
  | Except.ok m' => m'
  | Except.error _ => m

/-- The model after `fetchMore` on the server index. -/
def fetchedModel : ctkXnatTreeModel XnatStore := fetchMoreOr serverModel serverIndex

/-- The model after `fetchMore` on the server index, twice. -/
def refetchedModel : ctkXnatTreeModel XnatStore := fetchMoreOr fetchedModel serverIndex

/-- The model after `fetchMore` on the server index and then on the project index. -/
def projectFetchedModel : ctkXnatTreeModel XnatStore := fetchMoreOr fetchedModel projectIndex

/-! ## The search box: icon geometry and hit-testing -/

/-- The corners of `searchRect` in terms of the height and the frame offset. -/
theorem searchRect_eq (q : ctkSearchBox) :
    q.searchRect =
      ⟨q.frameOffset + 1, q.frameOffset + 1,
       q.height - q.frameOffset - 2, q.height - q.frameOffset - 2⟩ := by
  cases hf : q.hasFrame
  · simp [ctkSearchBox.searchRect, ctkSearchBox.frameOffset, hf, QRect.null, QRect.translate,
      QRect.setSize, QRect.left, QRect.top, QSize.sub, QSize.scale]
  · simp [ctkSearchBox.searchRect, ctkSearchBox.frameOffset, hf, QRect.null, QRect.moveTopLeft,
      QRect.moveLeft, QRect.moveTop, QRect.translate, QRect.setSize, QRect.left, QRect.top,
      QSize.sub, QSize.scale]
    ring

/-- For every size, `resizeEvent` puts the right boundary of the text area
(`event->size().width()` minus the right margin) `iconSpacing` pixels to the
right of the left coordinate of `clearRect`. -/
theorem resizeEvent_text_boundary (q : ctkSearchBox) (eventWidth : Int) :
    eventWidth - (q.resizeEvent eventWidth).textMargins.right = q.clearRect.left + 4 := by
  simp [ctkSearchBox.resizeEvent, ctkSearchBox.iconSpacing]
  ring

/-- C6: for every width, height and frame offset `f`, `searchRect` is the
square with top-left corner `(f+1, f+1)` and side `h - 2*(f+1)`, and
`clearRect` has the same top, width and height, left coordinate
`w - side - (f+1)`, and hence the same gap to the right edge of the widget as
`searchRect` has to the left edge. -/
theorem icon_rect_geometry (q : ctkSearchBox) :
    q.searchRect.left = q.frameOffset + 1 ∧
    q.searchRect.top = q.frameOffset + 1 ∧
    q.searchRect.width = q.height - 2 * (q.frameOffset + 1) ∧
    q.searchRect.height = q.height - 2 * (q.frameOffset + 1) ∧
    q.clearRect.top = q.searchRect.top ∧
    q.clearRect.width = q.searchRect.width ∧
    q.clearRect.height = q.searchRect.height ∧
    q.clearRect.left = q.width - (q.height - 2 * (q.frameOffset + 1)) - (q.frameOffset + 1) ∧
    q.width - (q.clearRect.left + q.clearRect.width) = q.searchRect.left - 0 := by
  rw [ctkSearchBox.clearRect, searchRect_eq]
  simp only [QRect.left, QRect.top, QRect.width, QRect.height, QRect.moveLeft]
  refine ⟨trivial, trivial, ?_, ?_, trivial, ?_, trivial, ?_, ?_⟩ <;> ring

/-- C5: a press inside `clearRect` empties the text and is not handed to the
base class (also when `searchRect` contains the position as well); a press
outside `clearRect` and inside `searchRect` selects the whole text, leaves the
text as it is and is not handed on; any other press is handed to the base
class and changes nothing. -/
theorem mousePressEvent_hit_testing (q : ctkSearchBox) (pos : QPoint) :
    (q.clearRect.contains pos = true →
      (q.mousePressEvent pos).1.text = "" ∧ (q.mousePressEvent pos).2 = none) ∧
    (q.clearRect.contains pos = false → q.searchRect.contains pos = true →
      (q.mousePressEvent pos).1.selection = some (0, q.text.length) ∧
      (q.mousePressEvent pos).1.text = q.text ∧ (q.mousePressEvent pos).2 = none) ∧
    (q.clearRect.contains pos = false → q.searchRect.contains pos = false →
      q.mousePressEvent pos = (q, some pos)) ∧
    (q.clearRect.contains pos = true → q.searchRect.contains pos = true →
      q.mousePressEvent pos = (q.clear, none)) := by
  refine ⟨?_, ?_, ?_, ?_⟩
  · intro hc
    simp only [ctkSearchBox.mousePressEvent, hc, if_true, and_true]
    unfold ctkSearchBox.clear
    split <;> simp [ctkSearchBox.updateClearButtonState]
  · intro hc hs
    simp [ctkSearchBox.mousePressEvent, hc, hs, ctkSearchBox.selectAll]
  · intro hc hs
    simp [ctkSearchBox.mousePressEvent, hc, hs]
  · intro hc _
    simp [ctkSearchBox.mousePressEvent, hc]

/-- Witness for C5: in a box 10 wide and 20 high the two rectangles overlap
at `(3, 3)`, and the press there clears the text. -/
theorem mousePressEvent_hit_testing_witness :
    ((sampleBox 10 20 1).clearRect.contains ⟨3, 3⟩ = true ∧
      (sampleBox 10 20 1).searchRect.contains ⟨3, 3⟩ = true) ∧
    ((sampleBox 10 20 1).mousePressEvent ⟨3, 3⟩).1.text = "" :=
  ⟨⟨by decide, by decide⟩,
   ((mousePressEvent_hit_testing (sampleBox 10 20 1) ⟨3, 3⟩).1 (by decide)).1⟩

/-- C8: in a framed box 100 wide and 20 high, `resizeEvent` sets the left
margin to `searchRect.right() + 4 = 21`, which is right of the search icon,
and the right margin to `14`: the text area then ends at `100 - 14 = 86`,
which is to the right of `clearRect.left() = 82`. -/
theorem resizeEvent_right_margin_overlaps_clear_icon :
    (sampleBox 100 20 1).searchRect.right = 17 ∧
    ((sampleBox 100 20 1).resizeEvent 100).textMargins.left = 21 ∧
    ((sampleBox 100 20 1).resizeEvent 100).textMargins.right = 14 ∧
    (sampleBox 100 20 1).clearRect.left = 82 ∧
    ¬ (100 - ((sampleBox 100 20 1).resizeEvent 100).textMargins.right ≤
        (sampleBox 100 20 1).clearRect.left) := by
  decide

/-! ## The heap of tree items -/

/-- A live address is below the size of the heap. -/
theorem lt_length_of_live {h : List ctkXnatTreeItem} {k : Nat} {it : ctkXnatTreeItem}
    (hk : h[k]? = some it) : k < h.length := by
  obtain ⟨hlt, _⟩ := List.getElem?_eq_some_iff.mp hk
  exact hlt

/-- The heap after `item->appendChild(new ctkXnatTreeItem(object, item))`:
the item at `item` has one more child link, to the new item at the former
end of the heap; every other item is as before. -/
theorem getElem?_appendNewChild (h : List ctkXnatTreeItem) (item : Nat)
    (object : Option ObjId) (it : ctkXnatTreeItem) (hit : h[item]? = some it) (k : Nat) :
    (appendNewChild h item object)[k]? =
      if k = item then some { it with childItems := it.childItems ++ [h.length] }
      else if k = h.length then some ⟨object, some item, []⟩
      else h[k]? := by
  have hlt : item < h.length := lt_length_of_live hit
  have h1 : (h ++ [(⟨object, some item, []⟩ : ctkXnatTreeItem)])[item]? = some it := by
    rw [List.getElem?_append_left hlt]; exact hit
  simp only [appendNewChild, appendChild, h1]
  by_cases hk : k = item
  · subst hk
    simp only [if_true]
    rw [List.getElem?_set_self (by simp; omega)]
  · have hk' : item ≠ k := fun e => hk e.symm
    rw [List.getElem?_set_ne hk']
    simp only [hk, if_false]
    by_cases hl : k = h.length
    · subst hl
      simp
    · simp only [hl, if_false]
      by_cases hlt' : k < h.length
      · rw [List.getElem?_append_left hlt']
      · have e1 : (h ++ [(⟨object, some item, []⟩ : ctkXnatTreeItem)])[k]? = none :=
          List.getElem?_eq_none (by simp; omega)
        have e2 : h[k]? = none := List.getElem?_eq_none (by omega)
        rw [e1, e2]

/-- The size of the heap after one allocation. -/
theorem length_appendNewChild (h : List ctkXnatTreeItem) (item : Nat)
    (object : Option ObjId) : (appendNewChild h item object).length = h.length + 1 := by
  unfold appendNewChild appendChild
  split <;> simp

/-- The heap after the loop of `fetchMore` over `cs`, started on a live item:
one new item per element of `cs`, in order, at the former end of the heap,
each wrapping its element and pointing to `item` as parent; `item` has the
new items appended to its child links in the same order; every other item is
as before. -/
theorem appendChildren_spec (item : Nat) (cs : List (Option ObjId)) :
    ∀ (h : List ctkXnatTreeItem) (it : ctkXnatTreeItem), h[item]? = some it →
      (appendChildren item cs h).length = h.length + cs.length ∧
      (appendChildren item cs h)[item]? =
        some { it with childItems := it.childItems ++ List.range' h.length cs.length } ∧
      (∀ k, k < h.length → k ≠ item → (appendChildren item cs h)[k]? = h[k]?) ∧
      (∀ j o, cs[j]? = some o →
        (appendChildren item cs h)[h.length + j]? = some ⟨o, some item, []⟩) := by
  induction cs with
  | nil =>
    intro h it hit
    refine ⟨by simp [appendChildren], ?_, ?_, ?_⟩
    · simp [appendChildren, hit]
    · intro k _ _; simp [appendChildren]
    · intro j o hj; simp at hj
  | cons c rest ih =>
    intro h it hit
    have hlt : item < h.length := lt_length_of_live hit
    have hne : h.length ≠ item := Nat.ne_of_gt hlt
    have hlen1 := length_appendNewChild h item c
    have hit1 : (appendNewChild h item c)[item]? =
        some { it with childItems := it.childItems ++ [h.length] } := by
      rw [getElem?_appendNewChild h item c it hit]; simp
    obtain ⟨ihlen, ihitem, ihold, ihnew⟩ := ih (appendNewChild h item c) _ hit1
    simp only [appendChildren]
    refine ⟨?_, ?_, ?_, ?_⟩
    · rw [ihlen, hlen1]; simp; omega
    · rw [ihitem, hlen1]
      simp [List.range'_succ]
    · intro k hk hki
      rw [ihold k (by omega) hki, getElem?_appendNewChild h item c it hit]
      have : k ≠ h.length := by omega
      simp [hki, this]
    · intro j o hj
      cases j with
      | zero =>
        simp at hj
        subst hj
        rw [Nat.add_zero, ihold h.length (by omega) hne, getElem?_appendNewChild h item c it hit]
        simp [hne]
      | succ j =>
        simp at hj
        have := ihnew j o hj
        rw [hlen1] at this
        rw [← this]
        congr 1
        omega

/-- Every item of the heap after one allocation is either an item of the
heap before, with the same parent link and the same child links (one more
link, to the new item, if it is `item`), or the new item. -/
theorem live_appendNewChild {h : List ctkXnatTreeItem} {item : Nat} {object : Option ObjId}
    {it : ctkXnatTreeItem} (hit : h[item]? = some it) {k : Nat} {kit' : ctkXnatTreeItem}
    (hk : (appendNewChild h item object)[k]? = some kit') :
    (∃ kit, h[k]? = some kit ∧ kit'.parent = kit.parent ∧ kit'.xnatObject = kit.xnatObject ∧
        (kit'.childItems = kit.childItems ∨
          (k = item ∧ kit'.childItems = kit.childItems ++ [h.length]))) ∨
      (k = h.length ∧ kit' = ⟨object, some item, []⟩) := by
  rw [getElem?_appendNewChild h item object it hit] at hk
  by_cases h1 : k = item
  · subst h1
    simp only [if_true, Option.some.injEq] at hk
    subst hk
    exact Or.inl ⟨it, hit, rfl, rfl, Or.inr ⟨rfl, rfl⟩⟩
  · simp only [h1, if_false] at hk
    by_cases h2 : k = h.length
    · simp only [h2, if_true, Option.some.injEq] at hk
      exact Or.inr ⟨h2, hk.symm⟩
    · simp only [h2, if_false] at hk
      exact Or.inl ⟨kit', hk, rfl, rfl, Or.inl rfl⟩

/-- Every item of the heap before an allocation is still there afterwards,
with the same parent link and at least the same child links. -/
theorem appendNewChild_keeps {h : List ctkXnatTreeItem} {item : Nat} (object : Option ObjId)
    {it : ctkXnatTreeItem} (hit : h[item]? = some it) {k : Nat} {kit : ctkXnatTreeItem}
    (hk : h[k]? = some kit) :
    ∃ kit', (appendNewChild h item object)[k]? = some kit' ∧ kit'.parent = kit.parent ∧
      kit'.xnatObject = kit.xnatObject ∧ ∀ c, c ∈ kit.childItems → c ∈ kit'.childItems := by
  rw [getElem?_appendNewChild h item object it hit]
  by_cases h1 : k = item
  · subst h1
    have e : it = kit := Option.some.inj (hit.symm.trans hk)
    subst e
    exact ⟨{ it with childItems := it.childItems ++ [h.length] }, by simp, rfl, rfl,
      fun c hc => by simp [hc]⟩
  · have h2 : k ≠ h.length := Nat.ne_of_lt (lt_length_of_live hk)
    exact ⟨kit, by simp [h1, h2, hk], rfl, rfl, fun c hc => hc⟩

/-- The heap of a freshly constructed model is well formed. -/
theorem heapOk_new : HeapOk [(⟨none, none, []⟩ : ctkXnatTreeItem)] where
  root := ⟨_, rfl, rfl⟩
  orphan := by
    intro c cit hc _
    have := lt_length_of_live hc
    simp at this
    exact this
  down := by
    intro p pit c hp hc
    have hlt := lt_length_of_live hp
    simp at hlt
    subst hlt
    simp at hp
    subst hp
    simp at hc
  up := by
    intro c cit q hc hq
    have hlt := lt_length_of_live hc
    simp at hlt
    subst hlt
    simp at hc
    subst hc
    simp at hq
  nodup := by
    intro p pit hp
    have hlt := lt_length_of_live hp
    simp at hlt
    subst hlt
    simp at hp
    subst hp
    simp

/-- Allocating a child for a live item keeps the heap well formed. -/
theorem heapOk_appendNewChild {h : List ctkXnatTreeItem} {item : Nat} {it : ctkXnatTreeItem}
    (object : Option ObjId) (hok : HeapOk h) (hit : h[item]? = some it) :
    HeapOk (appendNewChild h item object) where
  root := by
    obtain ⟨rt, hrt, hp⟩ := hok.root
    obtain ⟨rt', hrt', hp', _⟩ := appendNewChild_keeps object hit hrt
    exact ⟨rt', hrt', hp'.trans hp⟩
  orphan := by
    intro c cit hc hp
    rcases live_appendNewChild hit hc with ⟨kit, hk, hpar, _, _⟩ | ⟨_, hnew⟩
    · exact hok.orphan c kit hk (hpar ▸ hp)
    · subst hnew
      simp at hp
  down := by
    intro p pit c hp hc
    have hlen : item < h.length := lt_length_of_live hit
    have old : ∀ kit, h[p]? = some kit → c ∈ kit.childItems →
        c ≠ 0 ∧ ∃ cit, (appendNewChild h item object)[c]? = some cit ∧ cit.parent = some p := by
      intro kit hk hck
      obtain ⟨hc0, cit, hcit, hcp⟩ := hok.down p kit c hk hck
      obtain ⟨cit', hcit', hcp', _⟩ := appendNewChild_keeps object hit hcit
      exact ⟨hc0, cit', hcit', hcp'.trans hcp⟩
    rcases live_appendNewChild hit hp with ⟨kit, hk, _, _, hch | ⟨hpi, hch⟩⟩ | ⟨_, hnew⟩
    · exact old kit hk (hch ▸ hc)
    · rw [hch, List.mem_append] at hc
      rcases hc with hc | hc
      · exact old kit hk hc
      · simp only [List.mem_singleton] at hc
        subst hc
        refine ⟨Nat.ne_of_gt (Nat.zero_lt_of_lt hlen), ⟨object, some item, []⟩, ?_, by rw [hpi]⟩
        rw [getElem?_appendNewChild h item object it hit]
        simp [Nat.ne_of_gt hlen]
    · subst hnew
      simp at hc
  up := by
    intro c cit q hc hq
    rcases live_appendNewChild hit hc with ⟨kit, hk, hpar, _, _⟩ | ⟨hcl, hnew⟩
    · obtain ⟨qit, hqit, hmem⟩ := hok.up c kit q hk (hpar ▸ hq)
      obtain ⟨qit', hqit', _, _, hsub⟩ := appendNewChild_keeps object hit hqit
      exact ⟨qit', hqit', hsub c hmem⟩
    · subst hnew
      simp only [Option.some.injEq] at hq
      subst hq
      refine ⟨{ it with childItems := it.childItems ++ [h.length] }, ?_, by simp [hcl]⟩
      rw [getElem?_appendNewChild h item object it hit]
      simp
  nodup := by
    intro p pit hp
    rcases live_appendNewChild hit hp with ⟨kit, hk, _, _, hch | ⟨_, hch⟩⟩ | ⟨_, hnew⟩
    · rw [hch]
      exact hok.nodup p kit hk
    · rw [hch]
      refine List.Nodup.append (hok.nodup p kit hk) (List.nodup_singleton _) ?_
      intro x hx hx'
      simp only [List.mem_singleton] at hx'
      subst hx'
      obtain ⟨_, cit, hcit, _⟩ := hok.down p kit _ hk hx
      exact Nat.lt_irrefl _ (lt_length_of_live hcit)
    · subst hnew
      simp

/-- The loop of `fetchMore` on a live item keeps the heap well formed. -/
theorem heapOk_appendChildren (item : Nat) (cs : List (Option ObjId)) :
    ∀ (h : List ctkXnatTreeItem) (it : ctkXnatTreeItem), HeapOk h → h[item]? = some it →
      HeapOk (appendChildren item cs h) := by
  induction cs with
  | nil => intro h it hok _; exact hok
  | cons c rest ih =>
    intro h it hok hit
    obtain ⟨it', hit', _⟩ := appendNewChild_keeps c hit hit
    exact ih _ it' (heapOk_appendNewChild c hok hit) hit'

/-! ## fetchMore, addServer and the reachable states -/

/-- On a valid index whose item is live and wraps an object, `fetchMore`
returns: the object is fetched, its children list `cs` is read, the loop runs
over `cs`, and the two insert-rows signals are emitted when `cs` is not empty. -/
theorem fetchMore_ok {σ : Type} (R : XnatInterface σ) (m : ctkXnatTreeModel σ)
    (index : QModelIndex) (item : Nat) (it : ctkXnatTreeItem) (o : ObjId)
    (hv : index.isValid = true) (hp : index.internalPointer = some item)
    (hit : m.items[item]? = some it) (ho : it.xnatObject = some o) :
    m.fetchMore R index = Except.ok
      { m with
        objects := R.fetch m.objects o
        items := appendChildren item (R.children (R.fetch m.objects o) o) m.items
        signals := m.signals ++
          (if (R.children (R.fetch m.objects o) o).isEmpty then []
           else [Signal.beginInsertRows index 0
                   (((R.children (R.fetch m.objects o) o).length : Int) - 1),
                 Signal.endInsertRows]) } := by
  simp only [ctkXnatTreeModel.fetchMore, hv, ctkXnatTreeModel.itemAt, hp, derefItem, hit,
    derefObject, ho]
  cases hcs : R.children (R.fetch m.objects o) o <;> simp [appendChildren]

/-- The components of the state `fetchMore` returns on a valid index whose
item is live and wraps an object. -/
theorem fetchMore_fields {σ : Type} (R : XnatInterface σ) (m : ctkXnatTreeModel σ)
    (index : QModelIndex) (item : Nat) (it : ctkXnatTreeItem) (o : ObjId)
    (hv : index.isValid = true) (hp : index.internalPointer = some item)
    (hit : m.items[item]? = some it) (ho : it.xnatObject = some o) :
    ∃ m' : ctkXnatTreeModel σ, m.fetchMore R index = Except.ok m' ∧
      m'.objects = R.fetch m.objects o ∧
      m'.items = appendChildren item (R.children (R.fetch m.objects o) o) m.items ∧
      m'.m_RootItem = m.m_RootItem ∧
      m'.signals = m.signals ++
          (if (R.children (R.fetch m.objects o) o).isEmpty then []
           else [Signal.beginInsertRows index 0
                   (((R.children (R.fetch m.objects o) o).length : Int) - 1),
                 Signal.endInsertRows]) :=
  ⟨_, fetchMore_ok R m index item it o hv hp hit ho, rfl, rfl, rfl, rfl⟩

/-- When `fetchMore` returns, either the index was invalid and nothing
changed, or the index was valid and its item live and wrapping an object. -/
theorem fetchMore_inv {σ : Type} (R : XnatInterface σ) (m m' : ctkXnatTreeModel σ)
    (index : QModelIndex) (hf : m.fetchMore R index = Except.ok m') :
    (index.isValid = false ∧ m' = m) ∨
      ∃ (item : Nat) (it : ctkXnatTreeItem) (o : ObjId), index.isValid = true ∧
        index.internalPointer = some item ∧ m.items[item]? = some it ∧ it.xnatObject = some o := by
  cases hv : index.isValid
  · left
    simp [ctkXnatTreeModel.fetchMore, hv] at hf
    exact ⟨rfl, hf.symm⟩
  · right
    cases hp : index.internalPointer with
    | none => simp [ctkXnatTreeModel.fetchMore, hv, ctkXnatTreeModel.itemAt, hp] at hf
    | some item =>
      cases hit : m.items[item]? with
      | none =>
        simp [ctkXnatTreeModel.fetchMore, hv, ctkXnatTreeModel.itemAt, hp, derefItem, hit] at hf
      | some it =>
        cases ho : it.xnatObject with
        | none =>
          simp [ctkXnatTreeModel.fetchMore, hv, ctkXnatTreeModel.itemAt, hp, derefItem, hit,
            derefObject, ho] at hf
        | some o => exact ⟨item, it, o, rfl, rfl, hit, ho⟩

/-- In every reachable state the heap of items is well formed and the root
item is at address `0`. -/
theorem reachable_heapOk {σ : Type} {R : XnatInterface σ} {m : ctkXnatTreeModel σ}
    (hm : Reachable R m) : HeapOk m.items ∧ m.m_RootItem = 0 := by
  induction hm with
  | new objects => exact ⟨heapOk_new, rfl⟩
  | @addServer m server _ ih =>
    obtain ⟨hok, hr⟩ := ih
    obtain ⟨rt, hrt, _⟩ := hok.root
    refine ⟨?_, hr⟩
    show HeapOk (appendNewChild m.items m.m_RootItem server)
    rw [hr]
    exact heapOk_appendNewChild server hok hrt
  | @fetchMore m m' index _ hf ih =>
    obtain ⟨hok, hr⟩ := ih
    rcases fetchMore_inv R m m' index hf with ⟨_, he⟩ | ⟨item, it, o, hv, hp, hit, ho⟩
    · rw [he]; exact ⟨hok, hr⟩
    · rw [fetchMore_ok R m index item it o hv hp hit ho] at hf
      simp only [Except.ok.injEq] at hf
      subst hf
      exact ⟨heapOk_appendChildren item _ m.items it hok hit, hr⟩

/-! ## index and parent -/

/-- `QList::indexOf` on a list without repetition finds the position an
element was read from. -/
theorem qListIndexOf_of_getElem? {l : List ItemId} {k : Nat} {x : ItemId} (hnd : l.Nodup)
    (hk : l[k]? = some x) : qListIndexOf l x = (k : Int) := by
  obtain ⟨hlt, hx⟩ := List.getElem?_eq_some_iff.mp hk
  have hmem : x ∈ l := hx ▸ List.getElem_mem hlt
  have hidx : List.indexOf x l = k := hx ▸ List.indexOf_getElem hnd k hlt
  simp [qListIndexOf, hmem, hidx]

/-- `QList::indexOf` of an element of the list is a position holding it. -/
theorem qListIndexOf_of_mem {l : List ItemId} {x : ItemId} (hmem : x ∈ l) :
    0 ≤ qListIndexOf l x ∧ l[(qListIndexOf l x).toNat]? = some x := by
  simp [qListIndexOf, hmem]

/-- `rowCount` and `index` under an index of column at most `0` whose item
(the root item if the index is invalid) is live: the row count is the number
of child links, `index` returns the index of child link `row` for a row in
range and column `0`, and the invalid index otherwise. -/
theorem index_spec {σ : Type} (m : ctkXnatTreeModel σ) (p : QModelIndex) (pitem : Nat)
    (pit : ctkXnatTreeItem) (hcol : p.column ≤ 0)
    (hsel : (if !p.isValid then some m.m_RootItem else m.itemAt p) = some pitem)
    (hlive : m.items[pitem]? = some pit) :
    m.rowCount p = Except.ok (pit.childItems.length : Int) ∧
    (∀ r : Int, 0 ≤ r → r < pit.childItems.length →
      ∃ ch : ItemId, pit.childItems[r.toNat]? = some ch ∧
        m.index r 0 p = Except.ok (createIndex r 0 (some ch))) ∧
    (∀ r c : Int, (r < 0 ∨ (pit.childItems.length : Int) ≤ r ∨ c < 0 ∨ m.columnCount p ≤ c) →
      m.index r c p = Except.ok QModelIndex.invalid) := by
  have hcol' : ¬ p.column > 0 := by omega
  have hrc : m.rowCount p = Except.ok (pit.childItems.length : Int) := by
    simp only [ctkXnatTreeModel.rowCount, hcol', if_false, hsel, derefItem, hlive,
      ctkXnatTreeItem.childCount]
  refine ⟨hrc, ?_, ?_⟩
  · intro r h0 hlt
    have hnat : r.toNat < pit.childItems.length := by omega
    refine ⟨pit.childItems[r.toNat], List.getElem?_eq_getElem hnat, ?_⟩
    have hn : ¬ (r < 0 ∨ (0 : Int) < 0) := by omega
    have hr0 : ¬ r < 0 := by omega
    simp only [ctkXnatTreeModel.index, ctkXnatTreeModel.hasIndex, hn, if_false, hrc, hsel,
      derefItem, hlive]
    simp [hlt, ctkXnatTreeModel.columnCount, ctkXnatTreeItem.child, qListValue, hr0,
      List.getElem?_eq_getElem hnat]
  · intro r c hout
    by_cases hneg : r < 0 ∨ c < 0
    · simp [ctkXnatTreeModel.index, ctkXnatTreeModel.hasIndex, hneg]
    · have hfalse : (decide (r < (pit.childItems.length : Int)) &&
          decide (c < m.columnCount p)) = false := by
        simp only [ctkXnatTreeModel.columnCount] at hout ⊢
        rcases hout with h | h | h | h
        · omega
        · simp; omega
        · omega
        · simp; omega
      simp only [ctkXnatTreeModel.index, ctkXnatTreeModel.hasIndex, hneg, if_false, hrc, hfalse]

/-- Under an index of positive column the row count is `0` and `index`
returns the invalid index. -/
theorem index_of_pos_column {σ : Type} (m : ctkXnatTreeModel σ) (p : QModelIndex)
    (hcol : p.column > 0) (r c : Int) :
    m.rowCount p = Except.ok 0 ∧ m.index r c p = Except.ok QModelIndex.invalid := by
  have hrc : m.rowCount p = Except.ok 0 := by
    simp [ctkXnatTreeModel.rowCount, hcol]
  refine ⟨hrc, ?_⟩
  by_cases hneg : r < 0 ∨ c < 0
  · simp [ctkXnatTreeModel.index, ctkXnatTreeModel.hasIndex, hneg]
  · have hr : ¬ r < 0 := by omega
    simp [ctkXnatTreeModel.index, ctkXnatTreeModel.hasIndex, hneg, hrc, hr]

/-- A valid index of a well-formed heap is valid in the sense of Qt, its
item is live, is not the root, and has the item holding the child link as its
parent. -/
theorem isIndexOf_item {h : List ctkXnatTreeItem} (hok : HeapOk h) {i : QModelIndex}
    (hi : IsIndexOf h i) :
    i.isValid = true ∧ i.column = 0 ∧ i.model = true ∧ 0 ≤ i.row ∧
      ∃ (c q : Nat) (cit qit : ctkXnatTreeItem), i.internalPointer = some c ∧ c ≠ 0 ∧
        h[c]? = some cit ∧ cit.parent = some q ∧ h[q]? = some qit ∧
        qit.childItems[i.row.toNat]? = some c := by
  obtain ⟨hmod, hcol, hrow, c, q, qit, hptr, hq, hch⟩ := hi
  have hmem : c ∈ qit.childItems := List.mem_iff_getElem?.mpr ⟨_, hch⟩
  obtain ⟨hc0, cit, hcit, hpar⟩ := hok.down q qit c hq hmem
  refine ⟨?_, hcol, hmod, hrow, c, q, cit, qit, hptr, hc0, hcit, hpar, hq, hch⟩
  simp [QModelIndex.isValid, hmod, hcol, hrow]

/-- Every index the model hands out in a well-formed state is the default
constructed index or a valid index of the heap. -/
theorem issued_cases {σ : Type} {m : ctkXnatTreeModel σ} (hok : HeapOk m.items)
    (hroot : m.m_RootItem = 0) {i : QModelIndex} (hi : Issued m i) :
    i = QModelIndex.invalid ∨ IsIndexOf m.items i := by
  induction hi with
  | root => exact Or.inl rfl
  | @index p i row column _ hidx ih =>
    have key : ∀ (pitem : Nat) (pit : ctkXnatTreeItem), p.column ≤ 0 →
        (if !p.isValid then some m.m_RootItem else m.itemAt p) = some pitem →
        m.items[pitem]? = some pit → i = QModelIndex.invalid ∨ IsIndexOf m.items i := by
      intro pitem pit hcol hsel hlive
      obtain ⟨_, hin, hout⟩ := index_spec m p pitem pit hcol hsel hlive
      by_cases hrange : 0 ≤ row ∧ row < pit.childItems.length ∧ column = 0
      · obtain ⟨h0, hlt, hc⟩ := hrange
        subst hc
        obtain ⟨ch, hch, hres⟩ := hin row h0 hlt
        rw [hres] at hidx
        simp only [Except.ok.injEq] at hidx
        subst hidx
        exact Or.inr ⟨rfl, rfl, h0, ch, pitem, pit, rfl, hlive, hch⟩
      · have : row < 0 ∨ (pit.childItems.length : Int) ≤ row ∨ column < 0 ∨
            m.columnCount p ≤ column := by
          simp only [ctkXnatTreeModel.columnCount]
          omega
        rw [hout row column this] at hidx
        simp only [Except.ok.injEq] at hidx
        exact Or.inl hidx.symm
    rcases ih with hp | hp
    · subst hp
      obtain ⟨rt, hrt, _⟩ := hok.root
      exact key 0 rt (by decide) (by simp [QModelIndex.isValid, QModelIndex.invalid, hroot]) hrt
    · obtain ⟨hv, hcol, _, _, c, q, cit, qit, hptr, _, hcit, _⟩ := isIndexOf_item hok hp
      exact key c cit (by omega) (by simp [hv, ctkXnatTreeModel.itemAt, hptr]) hcit
  | @parent p i _ hpar ih =>
    rcases ih with hp | hp
    · subst hp
      simp [ctkXnatTreeModel.parent, QModelIndex.isValid, QModelIndex.invalid] at hpar
      exact Or.inl hpar.symm
    · obtain ⟨hv, _, _, _, c, q, cit, qit, hptr, _, hcit, hcpar, hq, _⟩ := isIndexOf_item hok hp
      by_cases hq0 : q = 0
      · simp [ctkXnatTreeModel.parent, hv, ctkXnatTreeModel.itemAt, hptr, derefItem, hcit,
          hcpar, hroot, hq0] at hpar
        exact Or.inl hpar.symm
      · cases hqp : qit.parent with
        | none => exact absurd (hok.orphan q qit hq hqp) hq0
        | some g =>
          obtain ⟨git, hg, hmem⟩ := hok.up q qit g hq hqp
          obtain ⟨hpos, hat⟩ := qListIndexOf_of_mem hmem
          simp [ctkXnatTreeModel.parent, hv, ctkXnatTreeModel.itemAt, hptr, derefItem, hcit,
            hcpar, hroot, hq0, itemRow, hq, hqp, hg] at hpar
          subst hpar
          exact Or.inr ⟨rfl, rfl, hpos, q, g, git, rfl, hg, hat⟩

/-- Every valid index the model hands out in a reachable state has column
`0` and points to a live item other than the root item. -/
theorem issued_valid_index {σ : Type} {R : XnatInterface σ} {m : ctkXnatTreeModel σ}
    (hm : Reachable R m) {i : QModelIndex} (hi : Issued m i) (hv : i.isValid = true) :
    i.column = 0 ∧ ∃ (item : Nat) (it : ctkXnatTreeItem),
      i.internalPointer = some item ∧ m.items[item]? = some it ∧ item ≠ m.m_RootItem := by
  obtain ⟨hok, hroot⟩ := reachable_heapOk hm
  rcases issued_cases hok hroot hi with hinv | hidx
  · subst hinv
    exact absurd hv (by decide)
  · obtain ⟨_, hcol, _, _, c, _, cit, _, hptr, hc0, hcit, _⟩ := isIndexOf_item hok hidx
    exact ⟨hcol, c, cit, hptr, hcit, by rw [hroot]; exact hc0⟩

/-! ## The sample states -/

/-- The state after `addServer` is reachable. -/
theorem reachable_serverModel : Reachable simpleXnat serverModel :=
  Reachable.addServer (some 0) (Reachable.new sampleStore)

/-- The server index is handed out by `index(0, 0, QModelIndex())`. -/
theorem issued_serverIndex : Issued serverModel serverIndex :=
  Issued.index 0 0 Issued.root rfl

/-- The first `fetchMore` on the server index returns `fetchedModel`. -/
theorem fetchMore_serverModel :
    serverModel.fetchMore simpleXnat serverIndex = Except.ok fetchedModel := rfl

/-- The state after the first `fetchMore` is reachable. -/
theorem reachable_fetchedModel : Reachable simpleXnat fetchedModel :=
  Reachable.fetchMore serverIndex reachable_serverModel fetchMore_serverModel

/-- The server index is handed out in `fetchedModel` as well. -/
theorem issued_serverIndex_fetched : Issued fetchedModel serverIndex :=
  Issued.index 0 0 Issued.root rfl

/-- The project index is handed out in `fetchedModel` by `index(0, 0, serverIndex)`. -/
theorem issued_projectIndex_fetched : Issued fetchedModel projectIndex :=
  Issued.index 0 0 issued_serverIndex_fetched rfl

/-- The `fetchMore` on the project index returns `projectFetchedModel`. -/
theorem fetchMore_fetchedModel_project :
    fetchedModel.fetchMore simpleXnat projectIndex = Except.ok projectFetchedModel := rfl

/-- The state after fetching the server and the project is reachable. -/
theorem reachable_projectFetchedModel : Reachable simpleXnat projectFetchedModel :=
  Reachable.fetchMore projectIndex reachable_fetchedModel fetchMore_fetchedModel_project

/-- The second `fetchMore` on the server index returns `refetchedModel`. -/
theorem fetchMore_fetchedModel_server :
    fetchedModel.fetchMore simpleXnat serverIndex = Except.ok refetchedModel := rfl

/-- The state after two `fetchMore` on the server index is reachable. -/
theorem reachable_refetchedModel : Reachable simpleXnat refetchedModel :=
  Reachable.fetchMore serverIndex reachable_fetchedModel fetchMore_fetchedModel_server

/-! ## The claims on the tree model -/

/-- C1: on a valid index (column `0`) whose item is live, wraps an object and
has no child items yet, `fetchMore` returns; it fetches the wrapped object
and, with `cs` the children list of the object after the fetch and `n` its
length: the heap grows by exactly `n` items, `rowCount(index)` is `n`, for
every `k` the `k`-th child item (the item of `index(k, 0, index)`) wraps
`cs[k]`, has the index's item as parent and no children, and the insert-rows
signals `(index, 0, n-1)` are emitted if `n > 0` and nothing is emitted
otherwise. -/
theorem fetchMore_appends_children {σ : Type} (R : XnatInterface σ) (m : ctkXnatTreeModel σ)
    (index : QModelIndex) (item : Nat) (it : ctkXnatTreeItem) (o : ObjId)
    (hv : index.isValid = true) (hcol : index.column = 0)
    (hp : index.internalPointer = some item) (hit : m.items[item]? = some it)
    (ho : it.xnatObject = some o) (hempty : it.childItems = []) :
    ∃ m' : ctkXnatTreeModel σ, m.fetchMore R index = Except.ok m' ∧
      m'.objects = R.fetch m.objects o ∧
      m'.items.length = m.items.length + (R.children m'.objects o).length ∧
      m'.rowCount index = Except.ok ((R.children m'.objects o).length : Int) ∧
      (∀ (k : Nat) (child : Option ObjId), (R.children m'.objects o)[k]? = some child →
        ∃ (c : ItemId) (cit : ctkXnatTreeItem),
          m'.index (k : Int) 0 index = Except.ok (createIndex (k : Int) 0 (some c)) ∧
          m'.items[c]? = some cit ∧ cit.xnatObject = child ∧ cit.parent = some item ∧
          cit.childItems = []) ∧
      m'.signals = m.signals ++
        (if 0 < (R.children m'.objects o).length then
          [Signal.beginInsertRows index 0 (((R.children m'.objects o).length : Int) - 1),
           Signal.endInsertRows]
         else []) := by
  obtain ⟨m', hf, hobj, hitems, _, hsig⟩ := fetchMore_fields R m index item it o hv hp hit ho
  refine ⟨m', hf, hobj, ?_⟩
  obtain ⟨hlen, hitem, _, hnew⟩ :=
    appendChildren_spec item (R.children (R.fetch m.objects o) o) m.items it hit
  rw [hempty, List.nil_append, ← hitems] at hitem
  rw [← hitems] at hlen hnew
  have hsel : (if !index.isValid then some m'.m_RootItem else m'.itemAt index) = some item := by
    simp [hv, ctkXnatTreeModel.itemAt, hp]
  obtain ⟨hrc, hin, _⟩ := index_spec m' index item _ (by omega) hsel hitem
  simp only [List.length_range'] at hrc hin
  rw [hobj]
  refine ⟨hlen, hrc, ?_, ?_⟩
  · intro k child hk
    have hkn : k < (R.children (R.fetch m.objects o) o).length :=
      (List.getElem?_eq_some_iff.mp hk).1
    obtain ⟨ch, hch, hidx⟩ := hin (k : Int) (by omega) (by omega)
    simp only [Int.toNat_ofNat] at hch
    rw [List.getElem?_range' _ _ hkn] at hch
    simp only [Option.some.injEq, Nat.one_mul] at hch
    subst hch
    exact ⟨_, _, hidx, hnew k child hk, rfl, rfl, rfl⟩
  · rw [hsig]
    cases hcs : R.children (R.fetch m.objects o) o <;> simp

/-- Witness for C1: the server index in the state after `addServer`. -/
theorem fetchMore_appends_children_witness :
    ∃ m' : ctkXnatTreeModel XnatStore,
      serverModel.fetchMore simpleXnat serverIndex = Except.ok m' ∧
      m'.objects = simpleXnat.fetch serverModel.objects 0 ∧
      m'.items.length = serverModel.items.length + (simpleXnat.children m'.objects 0).length ∧
      m'.rowCount serverIndex = Except.ok ((simpleXnat.children m'.objects 0).length : Int) ∧
      (∀ (k : Nat) (child : Option ObjId), (simpleXnat.children m'.objects 0)[k]? = some child →
        ∃ (c : ItemId) (cit : ctkXnatTreeItem),
          m'.index (k : Int) 0 serverIndex = Except.ok (createIndex (k : Int) 0 (some c)) ∧
          m'.items[c]? = some cit ∧ cit.xnatObject = child ∧ cit.parent = some 1 ∧
          cit.childItems = []) ∧
      m'.signals = serverModel.signals ++
        (if 0 < (simpleXnat.children m'.objects 0).length then
          [Signal.beginInsertRows serverIndex 0
             (((simpleXnat.children m'.objects 0).length : Int) - 1),
           Signal.endInsertRows]
         else []) :=
  fetchMore_appends_children simpleXnat serverModel serverIndex 1 ⟨some 0, some 0, []⟩ 0
    rfl rfl rfl rfl rfl rfl

/-- C4: with an invalid index, `fetchMore`, `downloadFile`, `uploadFile`,
`addEntry` and `removeEntry` return the state they were called in (item heap,
remote objects and emitted signals unchanged), and `removeAllRows` returns
`false` and the unchanged state. -/
theorem invalid_index_is_noop {σ : Type} (R : XnatInterface σ) (m : ctkXnatTreeModel σ)
    (index : QModelIndex) (zipFileName name : String) (hinv : index.isValid = false) :
    m.fetchMore R index = Except.ok m ∧
    m.downloadFile R index zipFileName = Except.ok m ∧
    m.uploadFile R index zipFileName = Except.ok m ∧
    m.addEntry R index name = Except.ok m ∧
    m.removeEntry R index = Except.ok m ∧
    m.removeAllRows R index = Except.ok (false, m) := by
  simp [ctkXnatTreeModel.fetchMore, ctkXnatTreeModel.downloadFile, ctkXnatTreeModel.uploadFile,
    ctkXnatTreeModel.addEntry, ctkXnatTreeModel.removeEntry, ctkXnatTreeModel.removeAllRows, hinv]

/-- Witness for C4: the default constructed index in the state after two
fetches. -/
theorem invalid_index_is_noop_witness :
    QModelIndex.invalid.isValid = false ∧
    projectFetchedModel.fetchMore simpleXnat QModelIndex.invalid = Except.ok projectFetchedModel ∧
    projectFetchedModel.downloadFile simpleXnat QModelIndex.invalid "a.zip" =
      Except.ok projectFetchedModel ∧
    projectFetchedModel.uploadFile simpleXnat QModelIndex.invalid "a.zip" =
      Except.ok projectFetchedModel ∧
    projectFetchedModel.addEntry simpleXnat QModelIndex.invalid "x" =
      Except.ok projectFetchedModel ∧
    projectFetchedModel.removeEntry simpleXnat QModelIndex.invalid =
      Except.ok projectFetchedModel ∧
    projectFetchedModel.removeAllRows simpleXnat QModelIndex.invalid =
      Except.ok (false, projectFetchedModel) :=
  ⟨rfl, invalid_index_is_noop simpleXnat projectFetchedModel QModelIndex.invalid "a.zip" "x" rfl⟩

/-- C2: `canFetchMore` is `false` for an invalid index; for a valid index
whose item is live and wraps the object `o` it is `true` exactly when `o` is
not fetched, and then `hasChildren` is `true`; and for every index of column
at most `0` (a valid index of column `0`, or the default constructed index)
whose item (the root item for an invalid index) is live, the three queries
return and `hasChildren` holds if and only if `canFetchMore` holds or
`rowCount` is positive. -/
theorem lazy_fetch_query_pair {σ : Type} (R : XnatInterface σ) (m : ctkXnatTreeModel σ)
    (index : QModelIndex) :
    (index.isValid = false → m.canFetchMore R index = Except.ok false) ∧
    (∀ (item : Nat) (it : ctkXnatTreeItem) (o : ObjId), index.isValid = true →
      index.internalPointer = some item → m.items[item]? = some it → it.xnatObject = some o →
        m.canFetchMore R index = Except.ok (!R.isFetched m.objects o) ∧
        (R.isFetched m.objects o = false → m.hasChildren R index = Except.ok true)) ∧
    (∀ (item : Nat) (it : ctkXnatTreeItem), index.column ≤ 0 →
      (if !index.isValid then some m.m_RootItem else m.itemAt index) = some item →
      m.items[item]? = some it → (index.isValid = true → ∃ o, it.xnatObject = some o) →
        ∃ (b c : Bool) (n : Int), m.hasChildren R index = Except.ok b ∧
          m.canFetchMore R index = Except.ok c ∧ m.rowCount index = Except.ok n ∧
          (b = true ↔ (c = true ∨ 0 < n))) := by
  refine ⟨?_, ?_, ?_⟩
  · intro hinv
    simp [ctkXnatTreeModel.canFetchMore, hinv]
  · intro item it o hv hp hit ho
    constructor
    · simp [ctkXnatTreeModel.canFetchMore, hv, ctkXnatTreeModel.itemAt, hp, derefItem, hit,
        derefObject, ho]
    · intro hnf
      simp [ctkXnatTreeModel.hasChildren, hv, ctkXnatTreeModel.itemAt, hp, derefItem, hit,
        derefObject, ho, hnf]
  · intro item it hcol hsel hit hobj
    obtain ⟨hrc, _, _⟩ := index_spec m index item it hcol hsel hit
    cases hv : index.isValid
    · simp only [hv, Bool.not_false, if_true, Option.some.injEq] at hsel
      refine ⟨decide (it.childCount > 0), false, _, ?_, ?_, hrc, ?_⟩
      · simp [ctkXnatTreeModel.hasChildren, hv, derefItem, hsel, hit]
      · simp [ctkXnatTreeModel.canFetchMore, hv]
      · simp [ctkXnatTreeItem.childCount]
    · obtain ⟨o, ho⟩ := hobj hv
      simp only [hv, Bool.not_true, ctkXnatTreeModel.itemAt] at hsel
      have hsel' : index.internalPointer = some item := by simpa using hsel
      refine ⟨!R.isFetched m.objects o || decide (it.childCount > 0), !R.isFetched m.objects o,
        _, ?_, ?_, hrc, ?_⟩
      · simp [ctkXnatTreeModel.hasChildren, hv, ctkXnatTreeModel.itemAt, hsel', derefItem, hit,
          derefObject, ho]
      · simp [ctkXnatTreeModel.canFetchMore, hv, ctkXnatTreeModel.itemAt, hsel', derefItem, hit,
          derefObject, ho]
      · simp [ctkXnatTreeItem.childCount]

/-- Witness for C2: the project item of `fetchedModel` is not fetched and
has no child items; `canFetchMore` and `hasChildren` are both `true`. -/
theorem lazy_fetch_query_pair_witness :
    projectIndex.isValid = true ∧
    simpleXnat.isFetched fetchedModel.objects 1 = false ∧
    fetchedModel.rowCount projectIndex = Except.ok 0 ∧
    fetchedModel.canFetchMore simpleXnat projectIndex =
      Except.ok (!simpleXnat.isFetched fetchedModel.objects 1) ∧
    (simpleXnat.isFetched fetchedModel.objects 1 = false →
      fetchedModel.hasChildren simpleXnat projectIndex = Except.ok true) :=
  ⟨rfl, rfl, rfl,
   (lazy_fetch_query_pair simpleXnat fetchedModel projectIndex).2.1 2 ⟨some 1, some 1, []⟩ 1
     rfl rfl rfl rfl⟩

/-- C3: in every reachable state, under every index `p` the model hands out
(the default constructed index for the root, or a valid index), `rowCount(p)`
returns some `n`, the item of `p` is live, and for every row `0 <= r < n`
the call `index(r, 0, p)` returns a valid index of row `r` whose item is
child link `r` of the item of `p` and whose `parent` is `p` again; for a row
or a column out of range `index` returns the invalid index. -/
theorem index_parent_round_trip {σ : Type} (R : XnatInterface σ) (m : ctkXnatTreeModel σ)
    (p : QModelIndex) (hm : Reachable R m) (hp : Issued m p) :
    ∃ (n : Int) (pit : ctkXnatTreeItem), m.rowCount p = Except.ok n ∧
      derefItem m.items (if !p.isValid then some m.m_RootItem else m.itemAt p) = Except.ok pit ∧
      (∀ r : Int, 0 ≤ r → r < n →
        ∃ (i : QModelIndex) (c : ItemId), m.index r 0 p = Except.ok i ∧ i.isValid = true ∧
          i.row = r ∧ pit.child r = some c ∧ m.itemAt i = some c ∧
          m.parent i = Except.ok p) ∧
      (∀ r c : Int, (r < 0 ∨ n ≤ r ∨ c < 0 ∨ m.columnCount p ≤ c) →
        m.index r c p = Except.ok QModelIndex.invalid) := by
  obtain ⟨hok, hroot⟩ := reachable_heapOk hm
  rcases issued_cases hok hroot hp with hinv | hidx
  · subst hinv
    obtain ⟨rt, hrt, _⟩ := hok.root
    have hsel : (if !QModelIndex.invalid.isValid then some m.m_RootItem
        else m.itemAt QModelIndex.invalid) = some 0 := by
      simp [QModelIndex.isValid, QModelIndex.invalid, hroot]
    obtain ⟨hrc, hin, hout⟩ := index_spec m QModelIndex.invalid 0 rt (by decide) hsel hrt
    refine ⟨_, rt, hrc, by rw [hsel]; simp [derefItem, hrt], ?_, hout⟩
    intro r h0 hlt
    obtain ⟨ch, hch, hres⟩ := hin r h0 hlt
    have hmem : ch ∈ rt.childItems := List.mem_iff_getElem?.mpr ⟨_, hch⟩
    obtain ⟨_, chit, hchit, hpar⟩ := hok.down 0 rt ch hrt hmem
    have hr0 : ¬ r < 0 := by omega
    refine ⟨_, ch, hres, ?_, rfl, ?_, rfl, ?_⟩
    · simp [createIndex, QModelIndex.isValid, h0]
    · simp [ctkXnatTreeItem.child, qListValue, hr0, hch]
    · simp [ctkXnatTreeModel.parent, createIndex, QModelIndex.isValid, h0,
        ctkXnatTreeModel.itemAt, derefItem, hchit, hpar, hroot]
  · obtain ⟨hv, hcol, hmod, hrow, c, q, cit, qit, hptr, hc0, hcit, hcpar, hq, hat⟩ :=
      isIndexOf_item hok hidx
    have hsel : (if !p.isValid then some m.m_RootItem else m.itemAt p) = some c := by
      simp [hv, ctkXnatTreeModel.itemAt, hptr]
    obtain ⟨hrc, hin, hout⟩ := index_spec m p c cit (by omega) hsel hcit
    refine ⟨_, cit, hrc, by rw [hsel]; simp [derefItem, hcit], ?_, hout⟩
    intro r h0 hlt
    obtain ⟨ch, hch, hres⟩ := hin r h0 hlt
    have hmem : ch ∈ cit.childItems := List.mem_iff_getElem?.mpr ⟨_, hch⟩
    obtain ⟨_, chit, hchit, hpar⟩ := hok.down c cit ch hcit hmem
    have hr0 : ¬ r < 0 := by omega
    have hidxof : qListIndexOf qit.childItems c = p.row := by
      rw [qListIndexOf_of_getElem? (hok.nodup q qit hq) hat]
      exact Int.toNat_of_nonneg hrow
    refine ⟨_, ch, hres, ?_, rfl, ?_, rfl, ?_⟩
    · simp [createIndex, QModelIndex.isValid, h0]
    · simp [ctkXnatTreeItem.child, qListValue, hr0, hch]
    · have hpeq : createIndex p.row 0 (some c) = p := by
        cases p
        simp_all [createIndex]
      simp [ctkXnatTreeModel.parent, createIndex, QModelIndex.isValid, h0,
        ctkXnatTreeModel.itemAt, derefItem, hchit, hpar, hroot, hc0, itemRow, hcit, hcpar, hq,
        hidxof]
      simpa [createIndex] using hpeq

/-- Witness for C3: the project index in the state after fetching the server
and the project. -/
theorem index_parent_round_trip_witness :
    Reachable simpleXnat projectFetchedModel ∧ Issued projectFetchedModel projectIndex ∧
    ∃ (n : Int) (pit : ctkXnatTreeItem), projectFetchedModel.rowCount projectIndex = Except.ok n ∧
      derefItem projectFetchedModel.items
        (if !projectIndex.isValid then some projectFetchedModel.m_RootItem
         else projectFetchedModel.itemAt projectIndex) = Except.ok pit ∧
      (∀ r : Int, 0 ≤ r → r < n →
        ∃ (i : QModelIndex) (c : ItemId),
          projectFetchedModel.index r 0 projectIndex = Except.ok i ∧ i.isValid = true ∧
          i.row = r ∧ pit.child r = some c ∧ projectFetchedModel.itemAt i = some c ∧
          projectFetchedModel.parent i = Except.ok projectIndex) ∧
      (∀ r c : Int, (r < 0 ∨ n ≤ r ∨ c < 0 ∨ projectFetchedModel.columnCount projectIndex ≤ c) →
        projectFetchedModel.index r c projectIndex = Except.ok QModelIndex.invalid) :=
  ⟨reachable_projectFetchedModel,
   Issued.index 0 0 (Issued.index 0 0 Issued.root rfl) rfl,
   index_parent_round_trip simpleXnat projectFetchedModel projectIndex
     reachable_projectFetchedModel (Issued.index 0 0 (Issued.index 0 0 Issued.root rfl) rfl)⟩

/-- Where `fetchMore` puts the new items in general: on a valid index of
column `0` whose item is live, wraps an object and already has `k` child
items, the `j`-th new item (allocated at the former end of the heap) is
reached at row `k + j`, whereas the signal announces the rows from `0`. -/
theorem fetchMore_rows_of_new_items {σ : Type} (R : XnatInterface σ) (m : ctkXnatTreeModel σ)
    (index : QModelIndex) (item : Nat) (it : ctkXnatTreeItem) (o : ObjId)
    (hv : index.isValid = true) (hcol : index.column = 0)
    (hp : index.internalPointer = some item) (hit : m.items[item]? = some it)
    (ho : it.xnatObject = some o) :
    ∃ m' : ctkXnatTreeModel σ, m.fetchMore R index = Except.ok m' ∧
      ∀ (j : Nat) (child : Option ObjId), (R.children (R.fetch m.objects o) o)[j]? = some child →
        m'.index ((it.childItems.length + j : Nat) : Int) 0 index =
          Except.ok (createIndex ((it.childItems.length + j : Nat) : Int) 0
            (some (m.items.length + j))) := by
  obtain ⟨m', hf, _, hitems, _, _⟩ := fetchMore_fields R m index item it o hv hp hit ho
  refine ⟨m', hf, ?_⟩
  obtain ⟨_, hitem, _, _⟩ :=
    appendChildren_spec item (R.children (R.fetch m.objects o) o) m.items it hit
  rw [← hitems] at hitem
  have hsel : (if !index.isValid then some m'.m_RootItem else m'.itemAt index) = some item := by
    simp [hv, ctkXnatTreeModel.itemAt, hp]
  obtain ⟨_, hin, _⟩ := index_spec m' index item _ (by omega) hsel hitem
  intro j child hj
  have hjn : j < (R.children (R.fetch m.objects o) o).length :=
    (List.getElem?_eq_some_iff.mp hj).1
  obtain ⟨ch, hch, hidx⟩ := hin ((it.childItems.length + j : Nat) : Int) (by omega)
    (by simp only [List.length_append, List.length_range']; omega)
  simp only [Int.toNat_ofNat] at hch
  rw [List.getElem?_append_right (by omega), Nat.add_sub_cancel_left,
    List.getElem?_range' _ _ hjn] at hch
  simp only [Option.some.injEq, Nat.one_mul] at hch
  rw [hidx, ← hch]

/-- The function `removeAllRows` never changes the heap of tree items: when
it returns, the items and the root pointer are as before, and so is every
row count. -/
theorem removeAllRows_items {σ : Type} (R : XnatInterface σ) (m m' : ctkXnatTreeModel σ)
    (parent : QModelIndex) (b : Bool) (h : m.removeAllRows R parent = Except.ok (b, m')) :
    m'.items = m.items ∧ m'.m_RootItem = m.m_RootItem ∧
      ∀ i : QModelIndex, m'.rowCount i = m.rowCount i := by
  have key : m'.items = m.items ∧ m'.m_RootItem = m.m_RootItem := by
    unfold ctkXnatTreeModel.removeAllRows at h
    split at h
    · simp only [Except.ok.injEq, Prod.mk.injEq] at h
      rw [← h.2]
      exact ⟨rfl, rfl⟩
    · split at h
      · exact absurd h (by simp)
      · split at h
        · exact absurd h (by simp)
        · split at h
          · exact absurd h (by simp)
          · simp only [Except.ok.injEq, Prod.mk.injEq] at h
            rw [← h.2]
            exact ⟨rfl, rfl⟩
          · simp only at h
            split at h <;>
              (simp only [Except.ok.injEq, Prod.mk.injEq] at h
               rw [← h.2]
               exact ⟨rfl, rfl⟩)
  refine ⟨key.1, key.2, ?_⟩
  intro i
  simp only [ctkXnatTreeModel.rowCount, ctkXnatTreeModel.itemAt, key.1, key.2]

/-- C7: a second `fetchMore` on the server index. Before the call the server
item has one child item (row `0`, address `2`); the call allocates one new
item, at address `3`, which afterwards is at row `1`, while row `0` still
holds the item of address `2`; the signal emitted by the call announces the
rows `0` to `0`. -/
theorem fetchMore_again_announces_other_rows :
    fetchedModel.fetchMore simpleXnat serverIndex = Except.ok refetchedModel ∧
    fetchedModel.rowCount serverIndex = Except.ok 1 ∧
    fetchedModel.index 0 0 serverIndex = Except.ok (createIndex 0 0 (some 2)) ∧
    fetchedModel.items.length = 3 ∧
    refetchedModel.items.length = 4 ∧
    refetchedModel.index 0 0 serverIndex = Except.ok (createIndex 0 0 (some 2)) ∧
    refetchedModel.index 1 0 serverIndex = Except.ok (createIndex 1 0 (some 3)) ∧
    refetchedModel.signals = fetchedModel.signals ++
      [Signal.beginInsertRows serverIndex 0 0, Signal.endInsertRows] :=
  ⟨rfl, rfl, rfl, rfl, rfl, rfl, rfl, rfl⟩

/-- C9: in the reachable state after `addServer`, the server index is valid
and has row `0`, the object it wraps has an empty children list, and the
access `children()[index.row()]` made by `removeAllRows`, `uploadFile`,
`addEntry` and `removeEntry` is out of range. -/
theorem child_lookup_out_of_range :
    Reachable simpleXnat serverModel ∧ Issued serverModel serverIndex ∧
    serverIndex.isValid = true ∧ serverIndex.row = 0 ∧
    derefItem serverModel.items (serverModel.itemAt serverIndex) =
      Except.ok ⟨some 0, some 0, []⟩ ∧
    (simpleXnat.children serverModel.objects 0).length = 0 ∧
    serverModel.removeAllRows simpleXnat serverIndex = Except.error Fault.indexOutOfRange ∧
    serverModel.uploadFile simpleXnat serverIndex "a.zip" = Except.error Fault.indexOutOfRange ∧
    serverModel.addEntry simpleXnat serverIndex "x" = Except.error Fault.indexOutOfRange ∧
    serverModel.removeEntry simpleXnat serverIndex = Except.error Fault.indexOutOfRange :=
  ⟨reachable_serverModel, issued_serverIndex, rfl, rfl, rfl, rfl, rfl, rfl, rfl, rfl⟩

/-- C10: in the state after fetching the server and the project, the server
index has one row; `removeAllRows` on it returns `true`, announces the
removal of the rows `0` to `1` (two rows), and afterwards the server index
still has one row. -/
theorem removeAllRows_leaves_rows :
    ∃ m' : ctkXnatTreeModel XnatStore,
      projectFetchedModel.removeAllRows simpleXnat serverIndex = Except.ok (true, m') ∧
      projectFetchedModel.rowCount serverIndex = Except.ok 1 ∧
      m'.rowCount serverIndex = Except.ok 1 ∧
      m'.signals = projectFetchedModel.signals ++
        [Signal.beginRemoveRows serverIndex 0 1, Signal.endRemoveRows] :=
  ⟨_, rfl, rfl, rfl, rfl⟩

end CTK
